import Mathlib

/-!
# Verification of the `PosixPath` lexical engine (`src/sw/posix_path.h`)

A shallow embedding of the path value type and its lexical engine.
Path text is modelled as `List Char`; C++ `str[i]` reads (always bounds-guarded
in the source) are modelled with `List.getD` whose default is the NUL character,
matching the tokenizer's explicit out-of-range convention (`current()`/`peek()`
return `'\0'` past the end).  `sizex` positions that may be `npos` are modelled
as `Option Nat` (`none` = `kNoPos`).  `SW_ASSERT` is modelled per its two build
modes: where a function's post-assert behaviour is well defined (the assert is
compiled out in release builds and the code continues), we model the
continuation; in `doMakeCanonical`, whose contract makes the assert a fatal
precondition check, the function is given an `Except` result type.
-/

namespace sw

/-- Model of `sw::isalpha` (`std::isalpha` on an unsigned char in the C
locale): ASCII letters only. -/
def isalpha (c : Char) : Bool :=
  (decide ('A'.toNat ≤ c.toNat) && decide (c.toNat ≤ 'Z'.toNat)) ||
  (decide ('a'.toNat ≤ c.toNat) && decide (c.toNat ≤ 'z'.toNat))

/-- Model of `sw::isalnum`: ASCII letters and digits. -/
def isalnum (c : Char) : Bool :=
  isalpha c || (decide ('0'.toNat ≤ c.toNat) && decide (c.toNat ≤ '9'.toNat))

/-- Model of `sw::endsWith(const std::string&, char)`:
`!str.empty() && str.back() == ch`. -/
def endsWith (str : List Char) (ch : Char) : Bool :=
  !str.isEmpty && (str.getLastD '\x00' == ch)

namespace path_detail

/-- `kNullTerm`: the NUL character returned by the tokenizer's character
accessors when reading past the end of the string. -/
def kNullTerm : Char := '\x00'

/-- Character at `pos`, with the C++ convention that a bounds-guarded read
past the end yields `kNullTerm`. -/
def charAt (str : List Char) (pos : Nat) : Char :=
  str.getD pos kNullTerm

/-- `path_detail::isDriveRoot(str, endPos)`: true iff the string begins with
`//<letter>:` (`endPos >= 4 && str[3] == ':' && str[0] == '/' && str[1] == '/'
&& sw::isalpha(str[2])`). -/
def isDriveRoot (str : List Char) (endPos : Nat) : Bool :=
  decide (4 ≤ endPos) && (charAt str 3 == ':') && (charAt str 0 == '/') &&
  (charAt str 1 == '/') && isalpha (charAt str 2)

/-- `path_detail::isNetworkRoot(str, endPos)`: `//<alnum>` shape that is not
also a drive root. -/
def isNetworkRoot (str : List Char) (endPos : Nat) : Bool :=
  let isNetRoot := decide (3 ≤ endPos) && (charAt str 0 == '/') &&
    (charAt str 1 == '/') && isalnum (charAt str 2)
  isNetRoot && !(decide (4 ≤ endPos) && (charAt str 3 == ':'))

/-- `path_detail::hasRootName`. -/
def hasRootName (str : List Char) (endPos : Nat) : Bool :=
  isDriveRoot str endPos || isNetworkRoot str endPos

/-- Loop body of `path_detail::findNextSep`; the extra `Nat` argument is the
remaining iteration count `endPos - startPos`, which makes the recursion
structural while visiting exactly the positions `startPos .. endPos-1`. -/
def findNextSepAux (str : List Char) : Nat → Nat → Option Nat
  | _, 0 => none
  | startPos, k + 1 =>
    if charAt str startPos = '/' then some startPos
    else findNextSepAux str (startPos + 1) k

/-- `path_detail::findNextSep(str, endPos, startPos)`: position of the first
`/` in `[startPos, endPos)`, or `none` (= `kNoPos`). -/
def findNextSep (str : List Char) (endPos startPos : Nat) : Option Nat :=
  findNextSepAux str startPos (endPos - startPos)

/-- `path_detail::findNetworkRootSep`: first separator at or after offset 3.
(The source asserts `isNetworkRoot` first; the assert is a release-mode nop
and the computation is total either way.) -/
def findNetworkRootSep (str : List Char) (endPos : Nat) : Option Nat :=
  findNextSep str endPos 3

/-- `path_detail::kDriveRootPos`. -/
def kDriveRootPos : Nat := 4

/-- `path_detail::findRootDirPos(str, endPos)`: offset of the separator acting
as root-directory, or `none`. -/
def findRootDirPos (str : List Char) (endPos : Nat) : Option Nat :=
  if endPos = 0 ∨ charAt str 0 ≠ '/' then none
  else if isDriveRoot str endPos then
    (if kDriveRootPos < endPos then some kDriveRootPos else none)
  else if isNetworkRoot str endPos then findNetworkRootSep str endPos
  else some 0

/-- `path_detail::PathSection`. -/
inductive PathSection : Type where
  | None
  | RootName
  | RootDir
  | Dot
  | DotDot
  | Filename
  | FinalSep
  | Sep
  | End
deriving DecidableEq, Repr

/-- `path_detail::PathSegment`: a segment's text together with its tag.
(The C++ `str` member is a borrowed `StringView`; we model the viewed
characters.) -/
structure PathSegment where
  str : List Char
  sect : PathSection
deriving DecidableEq, Repr

/-- `path_detail::kEndSegment`: default segment, `{empty view, End}`. -/
def kEndSegment : PathSegment := ⟨[], PathSection.End⟩

/-- `path_detail::PathSegmentIterator` state: owned text, cursor, last section
processed, and whether a filename-like segment has been seen. -/
structure PathSegmentIterator where
  pstr : List Char
  pos : Nat
  lastSection : PathSection
  seenFilename : Bool
deriving DecidableEq, Repr

namespace PathSegmentIterator

/-- `current()`: char at `_pos`, NUL when out of range. -/
def current (it : PathSegmentIterator) : Char := charAt it.pstr it.pos

/-- `peek()`: char at `_pos + 1`, NUL when out of range. -/
def peek (it : PathSegmentIterator) : Char := charAt it.pstr (it.pos + 1)

/-- `peekpeek()`: char at `_pos + 2`, NUL when out of range. -/
def peekpeek (it : PathSegmentIterator) : Char := charAt it.pstr (it.pos + 2)

/-- `onInitailSep()`: disambiguate a leading `/` into RootDir or RootName. -/
def onInitailSep (it : PathSegmentIterator) : PathSection :=
  if it.peek = '/' then
    if it.peekpeek = kNullTerm ∨ it.peekpeek = '/' then PathSection.RootDir
    else PathSection.RootName
  else PathSection.RootDir

/-- `onSectionDot()`: classify a `.` at the start of a section. -/
def onSectionDot (it : PathSegmentIterator) : PathSection :=
  if it.peek = '.' then PathSection.DotDot
  else if it.peek = '/' then PathSection.Dot
  else if it.peek = kNullTerm then PathSection.Dot
  else PathSection.Filename

/-- `currentSection()`: the transition function of the tokenizer's state
machine, examining `_lastSection` and the character at `_pos`. -/
def currentSection (it : PathSegmentIterator) : PathSection :=
  match it.lastSection with
  | PathSection.End => PathSection.End
  | PathSection.FinalSep => PathSection.End
  | PathSection.None =>
    if it.current = kNullTerm then PathSection.End
    else if it.current = '/' then it.onInitailSep
    else if it.current = '.' then it.onSectionDot
    else PathSection.Filename
  | PathSection.RootName =>
    if it.current = kNullTerm then PathSection.End
    else if it.current = '/' then PathSection.RootDir
    else if it.current = '.' then it.onSectionDot
    else PathSection.Filename
  | _ =>
    -- RootDir, Dot, DotDot, Filename, Sep
    if it.current = kNullTerm then PathSection.End
    else if it.current = '/' then
      (if it.peek = kNullTerm then PathSection.FinalSep else PathSection.Sep)
    else if it.current = '.' then it.onSectionDot
    else PathSection.Filename

/-- `onSectionRootName()`: emit the RootName segment.  The source's
`SW_ASSERT(false)` fallback (reached e.g. for `"//."`) is a release-mode nop
returning `kEndSegment`. -/
def onSectionRootName (it : PathSegmentIterator) : PathSegment × PathSegmentIterator :=
  let str := it.pstr
  let endPos := str.length
  if isDriveRoot str endPos then
    (⟨str.take kDriveRootPos, PathSection.RootName⟩, { it with pos := it.pos + kDriveRootPos })
  else if isNetworkRoot str endPos then
    let rootNameLen := (findNetworkRootSep str endPos).getD endPos
    (⟨str.take rootNameLen, PathSection.RootName⟩, { it with pos := it.pos + rootNameLen })
  else (kEndSegment, it)

/-- `onSectionFilename()`: emit a Filename segment.  Faithfully reproduces the
source's `findNextSep(str, endPos, 3)` call, which starts the separator scan
at relative offset 3. -/
def onSectionFilename (it : PathSegmentIterator) : PathSegment × PathSegmentIterator :=
  let sub := it.pstr.drop it.pos
  let endPos := sub.length
  let fnameLen := (findNextSep sub endPos 3).getD endPos
  (⟨sub.take fnameLen, PathSection.Filename⟩, { it with pos := it.pos + fnameLen })

/-- The `while (true)` loop of `advance()`.  The loop repeats only in the
internal `Sep` case, which requires the current char to be `/` and hence
`pos < length`; the fuel `pstr.length - pos + 1` therefore never runs out
(`advance` below supplies it), keeping the recursion structural. -/
def advanceLoop (it : PathSegmentIterator) : Nat → PathSegment × PathSegmentIterator
  | 0 => (kEndSegment, it)
  | fuel + 1 =>
    let sect := it.currentSection
    let it' : PathSegmentIterator := { it with lastSection := sect }
    match sect with
    | PathSection.None => (kEndSegment, it')  -- SW_ASSERT(false): release-mode nop
    | PathSection.RootName => it'.onSectionRootName
    | PathSection.Filename => onSectionFilename { it' with seenFilename := true }
    | PathSection.RootDir => (⟨['/'], PathSection.RootDir⟩, { it' with pos := it'.pos + 1 })
    | PathSection.Dot =>
      (⟨['.'], PathSection.Dot⟩, { it' with pos := it'.pos + 1, seenFilename := true })
    | PathSection.DotDot =>
      (⟨['.', '.'], PathSection.DotDot⟩, { it' with pos := it'.pos + 2, seenFilename := true })
    | PathSection.FinalSep =>
      let it'' : PathSegmentIterator := { it' with pos := it'.pos + 1 }
      if it''.seenFilename then (⟨['/'], PathSection.FinalSep⟩, it'') else (kEndSegment, it'')
    | PathSection.Sep => advanceLoop { it' with pos := it'.pos + 1 } fuel
    | PathSection.End => (kEndSegment, it')

/-- `advance()`: emit exactly one externally visible segment (or End). -/
def advance (it : PathSegmentIterator) : PathSegment × PathSegmentIterator :=
  advanceLoop it (it.pstr.length - it.pos + 1)

/-- `begin()`: reset the cursor and emit the first segment. -/
def begin (pstr : List Char) : PathSegment × PathSegmentIterator :=
  advance ⟨pstr, 0, PathSection.None, false⟩

end PathSegmentIterator

/-- The `for (auto segment = iter.begin(); segment != iter.end(); segment =
iter.next())` driver, collecting every emitted segment.  Each non-End emission
advances `pos` by at least one character, so at most `length + 1` segments are
emitted and fuel `length + 2` always suffices; the claims only evaluate this
on concrete inputs. -/
def segmentsLoop : Nat → PathSegmentIterator → List PathSegment
  | 0, _ => []
  | fuel + 1, it =>
    let (seg, it') := it.advance
    if seg = kEndSegment then [] else seg :: segmentsLoop fuel it'

/-- All segments of a path string, as produced by a fresh
`PathSegmentIterator`. -/
def pathSegments (pstr : List Char) : List PathSegment :=
  segmentsLoop (pstr.length + 2) ⟨pstr, 0, PathSection.None, false⟩

end path_detail

end sw

namespace sw

/-- `SW_POSIX_PATH_USE_FULL_NORMALIZATION` is not defined in the build, so
`kPosixPathUseFullNormalization` is `false` and `normalized()` routes to
`lexically_normal`. -/
def kPosixPathUseFullNormalization : Bool := false

/-- The `PosixPath` value: owned text plus the two speculative hint flags
(`true` = definitely normalized / absolute, `false` = not sure). -/
structure PosixPath where
  _pstr : List Char
  _normalized : Bool
  _absolute : Bool
deriving DecidableEq, Repr

namespace PosixPath

/-- The default constructor `PosixPath()`: empty text, `_normalized(true)`,
`_absolute(false)`. -/
def default : PosixPath := ⟨[], true, false⟩

/-- The parsing constructors (`PosixPath(const std::string&)` and friends):
they store the text and leave both hints at their `false` member initializers. -/
def ofString (s : List Char) : PosixPath := ⟨s, false, false⟩

/-- `empty()`. -/
def empty (p : PosixPath) : Bool := p._pstr.isEmpty

/-- Model of `std::string::compare`'s three-way result (only the sign is
specified by the standard: negative / zero / positive by lexicographic
byte comparison). -/
def strCompare : List Char → List Char → Int
  | [], [] => 0
  | [], _ :: _ => -1
  | _ :: _, [] => 1
  | a :: as, b :: bs =>
    if a.toNat < b.toNat then -1
    else if b.toNat < a.toNat then 1
    else strCompare as bs

/-- `PosixPath::compare(const PosixPath&)`: `_pstr.compare(p._pstr)`. -/
def compare (p q : PosixPath) : Int := strCompare p._pstr q._pstr

/-- `operator==`: `lhs.compare(rhs) == 0`. -/
def beq (lhs rhs : PosixPath) : Bool := compare lhs rhs == 0

/-- `operator!=`: `lhs.compare(rhs) != 0`. -/
def bne (lhs rhs : PosixPath) : Bool := compare lhs rhs != 0

/-- `operator<`: `lhs.compare(rhs) < 0`. -/
def ltOp (lhs rhs : PosixPath) : Bool := decide (compare lhs rhs < 0)

/-- `operator<=`: `!(rhs < lhs)`. -/
def leOp (lhs rhs : PosixPath) : Bool := !(ltOp rhs lhs)

/-- `operator>`: `rhs < lhs`. -/
def gtOp (lhs rhs : PosixPath) : Bool := ltOp rhs lhs

/-- `operator>=`: `!(lhs < rhs)`. -/
def geOp (lhs rhs : PosixPath) : Bool := !(ltOp lhs rhs)

/-- `doIsAbsolute()`: absolute iff a root-directory position exists. -/
def doIsAbsolute (p : PosixPath) : Bool :=
  (path_detail.findRootDirPos p._pstr p._pstr.length).isSome

/-- `is_absolute() const`: `_absolute || doIsAbsolute()`. -/
def is_absolute (p : PosixPath) : Bool := p._absolute || p.doIsAbsolute

/-- `is_relative() const`: `!_absolute && doIsRelative()`. -/
def is_relative (p : PosixPath) : Bool := !p._absolute && !p.doIsAbsolute

/-- `is_normalized()`: the speculative hint, returned as-is. -/
def is_normalized (p : PosixPath) : Bool := p._normalized

/-- `forceNormalized()`. -/
def forceNormalized (p : PosixPath) : PosixPath :=
  if !p._normalized then { p with _normalized := true } else p

/-- `forceAbsolute()`. -/
def forceAbsolute (p : PosixPath) : PosixPath :=
  if !p._absolute then { p with _absolute := true } else p

/-- `is_absonorm()`: `_normalized && _absolute`. -/
def is_absonorm (p : PosixPath) : Bool := p._normalized && p._absolute

/-- `doConcat(str, size)`: raw append; invalidates the normalized hint. -/
def doConcat (p : PosixPath) (str : List Char) : PosixPath :=
  { p with _pstr := p._pstr ++ str, _normalized := false }

/-- `operator+=(value_type)`: append one char; invalidates the normalized
hint. -/
def concatChar (p : PosixPath) (c : Char) : PosixPath :=
  { p with _pstr := p._pstr ++ [c], _normalized := false }

/-- `doAppend(const PosixPath&)`, the body of `operator/=`:
empty right operand appends a bare `/` (hints untouched); a right operand
whose text starts with `/` replaces the left operand wholesale (`*this =
that`); otherwise a separator (unless the left side already ends in `/` or is
empty) and the right text are appended and the normalized hint is cleared. -/
def doAppend (this that : PosixPath) : PosixPath :=
  let thisSep := endsWith this._pstr '/'
  if that.empty then { this with _pstr := this._pstr ++ ['/'] }
  else if path_detail.charAt that._pstr 0 = '/' then that
  else
    let withSep := if !thisSep && !this.empty then this._pstr ++ ['/'] else this._pstr
    { this with _pstr := withSep ++ that._pstr, _normalized := false }

/-- `operator/(const PosixPath&, const PosixPath&)`: copy then `/=`. -/
def opDiv (lhs rhs : PosixPath) : PosixPath := doAppend lhs rhs

end PosixPath

/-- `hash_value(const PosixPath&)` delegates to `std::hash<std::string>` on
`p.u8()`.  `std::hash` is implementation-defined but is a pure function of the
byte string; we model it as a 64-bit FNV-1a-style fold, which is all the
claims rely on. -/
def stdStringHash (s : List Char) : Nat :=
  s.foldl (fun h c => ((h ^^^ c.toNat) * 1099511628211) % 2 ^ 64) 14695981039346656037

/-- `sw::hash_value(const PosixPath&)`. -/
def hash_value (p : PosixPath) : Nat := stdStringHash p._pstr

namespace path_detail

/-- The `prevSegment` lambda of both normalization algorithms.  Note that it
returns `segments[size - 2]` — the element *below* the top of the stack — and
the end segment when the stack holds at most one element. -/
def prevSegment (segments : List PathSegment) : PathSegment :=
  if segments.isEmpty then kEndSegment
  else if 1 < segments.length then segments.getD (segments.length - 2) kEndSegment
  else kEndSegment

/-- Loop state of `lexically_normal`: the segment stack, the section of the
last emitted segment, and the pending trailing-separator flag. -/
structure NormState where
  segments : List PathSegment
  lastSection : PathSection
  concatFinalSep : Bool
deriving DecidableEq, Repr

/-- One iteration of `lexically_normal`'s segment loop. -/
def lexNormStep (st : NormState) (segment : PathSegment) : NormState :=
  let st' :=
    match segment.sect with
    | PathSection.Dot => st  -- #4: drop dots
    | PathSection.DotDot =>
      match (prevSegment st.segments).sect with
      | PathSection.Filename => { st with segments := st.segments.dropLast }
      | PathSection.RootDir => st  -- #6: can't go above root
      | _ => { st with segments := st.segments ++ [segment] }
    | PathSection.RootDir | PathSection.RootName | PathSection.Filename =>
      { st with segments := st.segments ++ [segment] }
    | PathSection.FinalSep =>
      if (prevSegment st.segments).sect ≠ PathSection.DotDot ∧
          st.lastSection ≠ PathSection.Dot
      then { st with concatFinalSep := true } else st
    | _ => st  -- Sep/None/End never reach the caller; SW_ASSERT(false) nop
  { st' with lastSection := segment.sect }

end path_detail

namespace PosixPath

/-- `lexically_normal()`: replay the tokenizer into a segment stack, rewrite
it per the rule set, and reassemble with `/=` (or `+=` for RootDir and the
remembered trailing separator). -/
def lexically_normal (p : PosixPath) : PosixPath :=
  if p.empty then p
  else
    let st := (path_detail.pathSegments p._pstr).foldl path_detail.lexNormStep
      ⟨[], path_detail.PathSection.None, false⟩
    -- #8: empty stack means the normal form is "." (built by the implicit
    -- parsing constructor from `kDotString`)
    if st.segments.isEmpty then ofString ['.']
    else
      -- "/x/." must keep its trailing separator
      let concatFinalSep :=
        if st.lastSection = path_detail.PathSection.Dot ∧
            (st.segments.getLastD path_detail.kEndSegment).sect ≠
              path_detail.PathSection.RootDir
        then true else st.concatFinalSep
      let result := st.segments.foldl
        (fun r seg =>
          if seg.sect = path_detail.PathSection.RootDir then r.doConcat seg.str
          else r.doAppend (ofString seg.str))
        PosixPath.default
      if concatFinalSep then result.concatChar '/' else result

/-- `doDefaultLexicalNormalization()`: selects the algorithm by
`kPosixPathUseFullNormalization` (false in this build). -/
def doDefaultLexicalNormalization (p : PosixPath) : PosixPath :=
  p.lexically_normal

/-- `doMakeNormalized(p)`: run the default normalization, then mark the result
normalized and copy `p`'s absolute hint. -/
def doMakeNormalized (p : PosixPath) : PosixPath :=
  { p.doDefaultLexicalNormalization with _normalized := true, _absolute := p._absolute }

/-- `normalized()`: trust the hint, otherwise normalize. -/
def normalizedFn (p : PosixPath) : PosixPath :=
  if p.is_normalized then p else doMakeNormalized p

/-- `doMakeCanonical(p, cwd)`: `SW_ASSERT(cwd.is_absolute() == true)` is a
fatal precondition check, modelled as the `Except.error` outcome; otherwise
absolutize against `cwd`, normalize, and force the absolute hint. -/
def doMakeCanonical (p cwd : PosixPath) : Except Unit PosixPath :=
  if cwd.is_absolute then
    let abs := if p.is_absolute then p else opDiv cwd p
    let canon := abs.normalizedFn
    Except.ok { canon with _absolute := true }
  else Except.error ()

/-- `absonormed(cwd)`: early-out when both hints are already set, else
`doMakeCanonical`. -/
def absonormed (p cwd : PosixPath) : Except Unit PosixPath :=
  if p.is_absonorm then Except.ok p else doMakeCanonical p cwd

end PosixPath

/-- `toWin32(const PosixPath&)`: drop the leading `//` of a drive root, then
turn every `/` into `\`.  The result is a `std::wstring` via `sw::widen`; the
paths in scope are ASCII, for which widening is character-wise, so the wide
string is modelled as the same character list. -/
def toWin32 (path : PosixPath) : List Char :=
  let u8 := path._pstr
  let hasDriveRoot := path_detail.isDriveRoot u8 u8.length
  let winPath := if hasDriveRoot then u8.drop 2 else u8
  winPath.map fun c => if c = '/' then '\\' else c

/-- `fromWin32(const std::wstring&)`: turn every `\` into `/`, then if the
text begins `<letter>:` re-enter the drive-root convention by prepending
`//`; the result is built by the parsing constructor. -/
def fromWin32 (wstr : List Char) : PosixPath :=
  let str := wstr.map fun c => if c = '\\' then '/' else c
  let str :=
    if 2 ≤ str.length ∧ isalpha (str.headD path_detail.kNullTerm) ∧
        str.getD 1 path_detail.kNullTerm = ':'
    then '/' :: '/' :: str else str
  PosixPath.ofString str

end sw

deriving instance DecidableEq for Except

namespace sw

/-! ## Helper lemmas -/

theorem headD_eq_getD_zero (l : List Char) (d : Char) : l.headD d = l.getD 0 d := by
  cases l <;> rfl

theorem exists_cons4_of_length_ge (l : List Char) (h : 4 ≤ l.length) :
    ∃ c0 c1 c2 c3 rest, l = c0 :: c1 :: c2 :: c3 :: rest := by
  rcases l with _ | ⟨c0, _ | ⟨c1, _ | ⟨c2, _ | ⟨c3, rest⟩⟩⟩⟩ <;>
    first
      | exact ⟨c0, c1, c2, c3, rest, rfl⟩
      | (simp only [List.length_nil, List.length_cons] at h; omega)

theorem exists_cons_of_length_ge3 (l : List Char) (h : 3 ≤ l.length) :
    ∃ c0 rest, l = c0 :: rest := by
  rcases l with _ | ⟨c0, rest⟩
  · simp only [List.length_nil] at h; omega
  · exact ⟨c0, rest, rfl⟩

theorem strCompare_self (l : List Char) : PosixPath.strCompare l l = 0 := by
  induction l with
  | nil => rfl
  | cons a as ih => simp [PosixPath.strCompare, ih]

theorem strCompare_eq_zero_iff (l₁ l₂ : List Char) :
    PosixPath.strCompare l₁ l₂ = 0 ↔ l₁ = l₂ := by
  induction l₁ generalizing l₂ with
  | nil => cases l₂ <;> simp [PosixPath.strCompare]
  | cons a as ih =>
    cases l₂ with
    | nil => simp [PosixPath.strCompare]
    | cons b bs =>
      by_cases hab : a.toNat < b.toNat
      · have hne : a ≠ b := fun he => by rw [he] at hab; omega
        simp [PosixPath.strCompare, hab, hne]
      · by_cases hba : b.toNat < a.toNat
        · have hne : a ≠ b := fun he => by rw [he] at hba; omega
          simp [PosixPath.strCompare, hab, hba, hne]
        · have h' : a.toNat = b.toNat := by omega
          have hval : a = b :=
            Char.eq_of_val_eq (UInt32.eq_of_toBitVec_eq (BitVec.eq_of_toNat_eq h'))
          simp [PosixPath.strCompare, hab, hba, hval, ih]

theorem beq_of_pstr_eq (p q : PosixPath) (h : p._pstr = q._pstr) :
    PosixPath.beq p q = true := by
  simp only [PosixPath.beq, PosixPath.compare, h, strCompare_self]
  rfl

theorem driveRoot_excludes_networkRoot (s : List Char) (n : Nat) :
    (path_detail.isDriveRoot s n && path_detail.isNetworkRoot s n) = false := by
  by_cases hd : path_detail.isDriveRoot s n = true
  · simp only [path_detail.isDriveRoot, Bool.and_eq_true, decide_eq_true_eq,
      beq_iff_eq] at hd
    obtain ⟨⟨⟨⟨h4, h3⟩, h0⟩, h1⟩, ha⟩ := hd
    simp [path_detail.isNetworkRoot, h4, h3]
  · simp [Bool.eq_false_iff.mpr hd]

theorem networkRoot_not_driveRoot (s : List Char) (n : Nat)
    (h : path_detail.isNetworkRoot s n = true) : path_detail.isDriveRoot s n = false := by
  have := driveRoot_excludes_networkRoot s n
  simp [h] at this
  exact this

/-- The separator conversions cancel on any text that contains no backslash. -/
theorem win32_sep_roundtrip (l : List Char) (h : '\\' ∉ l) :
    ((l.map fun c => if c = '/' then '\\' else c).map
      fun c => if c = '\\' then '/' else c) = l := by
  induction l with
  | nil => rfl
  | cons c cs ih =>
    have hc : c ≠ '\\' := fun hx => h (hx ▸ List.mem_cons_self c cs)
    have hcs : '\\' ∉ cs := fun hx => h (List.mem_cons_of_mem c hx)
    by_cases hsep : c = '/'
    · simp [hsep, ih hcs]
    · simp [hsep, hc, ih hcs]

theorem findRootDirPos_head (s : List Char) (n : Nat)
    (h : (path_detail.findRootDirPos s n).isSome = true) :
    n ≠ 0 ∧ path_detail.charAt s 0 = '/' := by
  by_cases h0 : n = 0 ∨ path_detail.charAt s 0 ≠ '/'
  · simp [path_detail.findRootDirPos, h0] at h
  · push_neg at h0
    exact h0

/-! ## Claim theorems -/

/-- C1: `lexically_normal` maps the reference inputs to the stated outputs:
`""` to `""`, `"./foo"` to `"foo"`, `"././"` to `"."`, and
`"/foo/bar/../bar/.././foo"` to `"/foo/foo"`. -/
theorem lexically_normal_reference_cases :
    (PosixPath.lexically_normal (PosixPath.ofString "".toList))._pstr = "".toList ∧
    (PosixPath.lexically_normal (PosixPath.ofString "./foo".toList))._pstr = "foo".toList ∧
    (PosixPath.lexically_normal (PosixPath.ofString "././".toList))._pstr = ".".toList ∧
    (PosixPath.lexically_normal
      (PosixPath.ofString "/foo/bar/../bar/.././foo".toList))._pstr = "/foo/foo".toList := by
  decide

/-- C2 (failing input): normalization is not idempotent.  `"....."` tokenizes
as `..`, `..`, `.`, whose normal form is rendered `"../../"` (the trailing
separator is kept because the final-separator rule consults
`segments[size-2]`, not the stack top), yet renormalizing `"../../"` yields
`"../.."` — the same rule now sees the dot-dot and drops the separator.  This
contradicts documented rule 7 of the algorithm ("if the last filename is
dot-dot, remove any trailing directory-separator") as well as the idempotence
property. -/
theorem lexically_normal_not_idempotent :
    (PosixPath.lexically_normal (PosixPath.ofString ".....".toList))._pstr = "../../".toList ∧
    (PosixPath.lexically_normal
      (PosixPath.lexically_normal (PosixPath.ofString ".....".toList)))._pstr = "../..".toList ∧
    (PosixPath.lexically_normal
        (PosixPath.lexically_normal (PosixPath.ofString ".....".toList)))._pstr ≠
      (PosixPath.lexically_normal (PosixPath.ofString ".....".toList))._pstr := by
  decide

/-- C4 (counterexample): a `PosixPath` built by parsing the empty string
leaves the `_normalized` member at its `false` initializer, so
`is_normalized()` returns `false`, not `true` as claimed. -/
theorem parse_empty_not_marked_normalized :
    (PosixPath.ofString "".toList).is_normalized = false := by
  decide

/-- C4 (amended): parsing the empty string yields `is_absolute() == false`
but `is_normalized() == false` (the speculative hint is left unknown); it is
the default constructor that produces an empty path with `is_normalized() ==
true` and `is_absolute() == false`. -/
theorem empty_path_flags :
    (PosixPath.ofString "".toList).is_normalized = false ∧
    (PosixPath.ofString "".toList).is_absolute = false ∧
    PosixPath.default.is_normalized = true ∧
    PosixPath.default.is_absolute = false := by
  decide

/-- C6: for every string and end offset, `isDriveRoot` and `isNetworkRoot`
are never both true: a drive root requires `str[3] == ':'` (with
`endPos >= 4`), which `isNetworkRoot` explicitly excludes. -/
theorem root_detection_exclusive (s : List Char) (n : Nat) :
    (path_detail.isDriveRoot s n && path_detail.isNetworkRoot s n) = false :=
  driveRoot_excludes_networkRoot s n

/-- C9: equality, ordering, and hashing are functions of the owned text
alone: `operator==` agrees with byte-equality of the texts, `compare` and all
relational operators are determined by the three-way text comparison, and
`hash_value` factors through the text — the two hint flags never enter. -/
theorem compare_hash_text_only (t₁ t₂ : List Char) (n₁ a₁ n₂ a₂ : Bool) :
    PosixPath.beq ⟨t₁, n₁, a₁⟩ ⟨t₂, n₂, a₂⟩ = decide (t₁ = t₂) ∧
    PosixPath.bne ⟨t₁, n₁, a₁⟩ ⟨t₂, n₂, a₂⟩ = !decide (t₁ = t₂) ∧
    PosixPath.compare ⟨t₁, n₁, a₁⟩ ⟨t₂, n₂, a₂⟩ = PosixPath.strCompare t₁ t₂ ∧
    PosixPath.ltOp ⟨t₁, n₁, a₁⟩ ⟨t₂, n₂, a₂⟩ = decide (PosixPath.strCompare t₁ t₂ < 0) ∧
    PosixPath.leOp ⟨t₁, n₁, a₁⟩ ⟨t₂, n₂, a₂⟩ = !decide (PosixPath.strCompare t₂ t₁ < 0) ∧
    PosixPath.gtOp ⟨t₁, n₁, a₁⟩ ⟨t₂, n₂, a₂⟩ = decide (PosixPath.strCompare t₂ t₁ < 0) ∧
    PosixPath.geOp ⟨t₁, n₁, a₁⟩ ⟨t₂, n₂, a₂⟩ = !decide (PosixPath.strCompare t₁ t₂ < 0) ∧
    hash_value ⟨t₁, n₁, a₁⟩ = stdStringHash t₁ := by
  refine ⟨?_, ?_, rfl, rfl, rfl, rfl, rfl, rfl⟩
  · by_cases h : t₁ = t₂
    · simp [PosixPath.beq, PosixPath.compare, h, strCompare_self]
    · have : PosixPath.strCompare t₁ t₂ ≠ 0 := fun hz =>
        h ((strCompare_eq_zero_iff t₁ t₂).mp hz)
      simp [PosixPath.beq, PosixPath.compare, h, this]
  · by_cases h : t₁ = t₂
    · simp [PosixPath.bne, PosixPath.compare, h, strCompare_self]
    · have : PosixPath.strCompare t₁ t₂ ≠ 0 := fun hz =>
        h ((strCompare_eq_zero_iff t₁ t₂).mp hz)
      simp [PosixPath.bne, PosixPath.compare, h, this]

/-- C10: the normalized hint is trusted without re-verification — whenever
the hint is set (in particular after `forceNormalized`), `normalized()`
returns the path unchanged, whether or not the text is lexically normal. -/
theorem normalized_hint_trusted (p : PosixPath) :
    (p.forceNormalized).normalizedFn = p.forceNormalized ∧
    (p.is_normalized = true → p.normalizedFn = p) := by
  constructor
  · by_cases h : p._normalized <;>
      simp [PosixPath.forceNormalized, PosixPath.normalizedFn, PosixPath.is_normalized, h]
  · intro h
    simp [PosixPath.normalizedFn, PosixPath.is_normalized] at h ⊢
    simp [h]

/-- C10 witness: a concrete path whose text `"./x"` is *not* lexically normal
but whose hint is set is returned unchanged by `normalized()`. -/
theorem normalized_hint_trusted_witness :
    PosixPath.normalizedFn ⟨"./x".toList, true, false⟩ = ⟨"./x".toList, true, false⟩ :=
  (normalized_hint_trusted ⟨"./x".toList, true, false⟩).2 rfl

end sw

namespace sw

/-- C3: appending an absolute path replaces the base: for any `a` and any `b`
that is absolute (a root-directory offset exists in its text, the data
model's definition of absoluteness), `a / b` equals `b` — both structurally
and under `operator==`. -/
theorem append_absolute_replaces (a b : PosixPath)
    (h : b.doIsAbsolute = true) :
    PosixPath.opDiv a b = b ∧ PosixPath.beq (PosixPath.opDiv a b) b = true := by
  obtain ⟨hn, hc⟩ := findRootDirPos_head b._pstr b._pstr.length h
  have hemp : b.empty = false := by
    have : b._pstr ≠ [] := fun he => hn (by rw [he]; rfl)
    simpa [PosixPath.empty, List.isEmpty_iff]
  have hrepl : PosixPath.opDiv a b = b := by
    simp [PosixPath.opDiv, PosixPath.doAppend, hemp, hc]
  exact ⟨hrepl, by rw [hrepl]; exact beq_of_pstr_eq b b rfl⟩

/-- C3 witness: `"x" / "/y" == "/y"`. -/
theorem append_absolute_replaces_witness :
    PosixPath.opDiv (PosixPath.ofString "x".toList) (PosixPath.ofString "/y".toList) =
      PosixPath.ofString "/y".toList ∧
    PosixPath.beq
      (PosixPath.opDiv (PosixPath.ofString "x".toList) (PosixPath.ofString "/y".toList))
      (PosixPath.ofString "/y".toList) = true :=
  append_absolute_replaces _ _ (by decide)

/-- C5 (counterexample): the hint bookkeeping is not as claimed in all cases.
Appending an empty path to a default-constructed path (whose normalized hint
is `true`) returns early and leaves the hint `true` — it is not cleared to
unknown; and appending an absolute path to a path whose absolute hint is set
replaces the hints wholesale, so `a`'s absolute hint is not preserved. -/
theorem doAppend_hint_counterexample :
    (PosixPath.doAppend PosixPath.default PosixPath.default)._pstr = ['/'] ∧
    (PosixPath.doAppend PosixPath.default PosixPath.default)._normalized = true ∧
    (PosixPath.forceAbsolute (PosixPath.ofString "x".toList))._absolute = true ∧
    (PosixPath.doAppend (PosixPath.forceAbsolute (PosixPath.ofString "x".toList))
      (PosixPath.ofString "/y".toList))._absolute = false := by
  decide

/-- C5 (amended): `doAppend` appends a single `/` when the right operand is
empty (leaving both hint flags of `a` untouched); a right operand whose text
starts with `/` replaces the left operand entirely, hint flags included;
otherwise the right text is appended after a separator (unless `a` is empty
or already ends in `/`), the normalized hint is cleared to unknown, and the
absolute hint of `a` is preserved. -/
theorem doAppend_spec (a b : PosixPath) :
    (b._pstr = [] → PosixPath.doAppend a b = { a with _pstr := a._pstr ++ ['/'] }) ∧
    (b._pstr ≠ [] → path_detail.charAt b._pstr 0 = '/' →
      PosixPath.doAppend a b = b) ∧
    (b._pstr ≠ [] → path_detail.charAt b._pstr 0 ≠ '/' →
      PosixPath.doAppend a b =
        { _pstr := (if (!endsWith a._pstr '/' && !a._pstr.isEmpty) = true
                    then a._pstr ++ ['/'] else a._pstr) ++ b._pstr,
          _normalized := false,
          _absolute := a._absolute }) := by
  refine ⟨?_, ?_, ?_⟩
  · intro hb
    have hemp : b.empty = true := by simp [PosixPath.empty, hb]
    simp [PosixPath.doAppend, hemp]
  · intro hb hh
    have hemp : b.empty = false := by simpa [PosixPath.empty, List.isEmpty_iff]
    simp [PosixPath.doAppend, hemp, hh]
  · intro hb hh
    have hemp : b.empty = false := by simpa [PosixPath.empty, List.isEmpty_iff]
    simp [PosixPath.doAppend, hemp, hh, hb, PosixPath.empty]

/-- C5 witness: the plain-append branch at `a = "a"`, `b = "b"`. -/
theorem doAppend_spec_witness :
    PosixPath.doAppend (PosixPath.ofString "a".toList) (PosixPath.ofString "b".toList) =
      { _pstr := (if (!endsWith "a".toList '/' && !"a".toList.isEmpty) = true
                  then "a".toList ++ ['/'] else "a".toList) ++ "b".toList,
        _normalized := false,
        _absolute := (PosixPath.ofString "a".toList)._absolute } :=
  (doAppend_spec (PosixPath.ofString "a".toList) (PosixPath.ofString "b".toList)).2.2
    (by decide) (by decide)

end sw

namespace sw

/-- C7 (counterexample): `absonormed` returns early whenever both hint flags
are already set and never reaches the precondition assertion: with `self =
forceAbsolute(PosixPath())` (hints `normalized=true, absolute=true`) and the
relative `cwd = "x"`, no fatal assertion fires even though
`cwd.is_absolute()` is false — so the assertion does *not* fire exactly when
the precondition is violated. -/
theorem absonormed_skips_precondition_check :
    (PosixPath.ofString "x".toList).is_absolute = false ∧
    PosixPath.absonormed (PosixPath.forceAbsolute PosixPath.default)
        (PosixPath.ofString "x".toList) =
      Except.ok (PosixPath.forceAbsolute PosixPath.default) := by
  decide

/-- C7 (amended): `absonormed(cwd)` hits the fatal assertion exactly when the
early-out does not apply (`is_absonorm()` is false) *and* the precondition
`cwd.is_absolute()` is violated; whenever `cwd` is absolute it succeeds, the
result's text is that of `self.normalized()` when `self` is already absolute
and that of `(cwd / self).normalized()` otherwise, with the absolute flag
forced true in the latter case. -/
theorem absonormed_spec (p cwd : PosixPath) :
    (PosixPath.absonormed p cwd = Except.error () ↔
      (p.is_absonorm = false ∧ cwd.is_absolute = false)) ∧
    (cwd.is_absolute = true →
      ∃ r, PosixPath.absonormed p cwd = Except.ok r ∧
        (p.is_absolute = true → r._pstr = p.normalizedFn._pstr) ∧
        (p.is_absolute = false →
          r._pstr = (PosixPath.opDiv cwd p).normalizedFn._pstr ∧
          r._absolute = true)) := by
  by_cases habs : p.is_absonorm = true
  · have hnorm : p._normalized = true := by
      simp [PosixPath.is_absonorm] at habs; exact habs.1
    have habsf : p._absolute = true := by
      simp [PosixPath.is_absonorm] at habs; exact habs.2
    constructor
    · simp [PosixPath.absonormed, habs]
    · intro _
      refine ⟨p, by simp [PosixPath.absonormed, habs], ?_, ?_⟩
      · intro _
        simp [PosixPath.normalizedFn, PosixPath.is_normalized, hnorm]
      · intro hfalse
        rw [PosixPath.is_absolute, habsf] at hfalse
        simp at hfalse
  · have habs' : p.is_absonorm = false := by simpa using habs
    by_cases hcwd : cwd.is_absolute = true
    · constructor
      · simp [PosixPath.absonormed, habs', PosixPath.doMakeCanonical, hcwd]
      · intro _
        by_cases hpabs : p.is_absolute = true
        · refine ⟨{ p.normalizedFn with _absolute := true }, ?_, ?_, ?_⟩
          · simp [PosixPath.absonormed, habs', PosixPath.doMakeCanonical, hcwd, hpabs]
          · intro _; rfl
          · intro hfalse; rw [hpabs] at hfalse; simp at hfalse
        · have hpabs' : p.is_absolute = false := by simpa using hpabs
          refine ⟨{ (PosixPath.opDiv cwd p).normalizedFn with _absolute := true },
            ?_, ?_, ?_⟩
          · simp [PosixPath.absonormed, habs', PosixPath.doMakeCanonical, hcwd, hpabs']
          · intro htrue; rw [htrue] at hpabs'; simp at hpabs'
          · intro _; exact ⟨rfl, rfl⟩
    · have hcwd' : cwd.is_absolute = false := by simpa using hcwd
      constructor
      · simp [PosixPath.absonormed, habs', PosixPath.doMakeCanonical, hcwd']
      · intro htrue; rw [htrue] at hcwd'; simp at hcwd'

/-- C7 witness: `self = "a"` (relative), `cwd = "/c"` (absolute): the call
succeeds and the result's text is that of `("/c" / "a").normalized()` with
the absolute flag forced. -/
theorem absonormed_spec_witness :
    ∃ r, PosixPath.absonormed (PosixPath.ofString "a".toList)
        (PosixPath.ofString "/c".toList) = Except.ok r ∧
      ((PosixPath.ofString "a".toList).is_absolute = true →
        r._pstr = (PosixPath.ofString "a".toList).normalizedFn._pstr) ∧
      ((PosixPath.ofString "a".toList).is_absolute = false →
        r._pstr = (PosixPath.opDiv (PosixPath.ofString "/c".toList)
          (PosixPath.ofString "a".toList)).normalizedFn._pstr ∧
        r._absolute = true) :=
  (absonormed_spec (PosixPath.ofString "a".toList) (PosixPath.ofString "/c".toList)).2
    (by decide)

end sw

namespace sw

/-- C8: native conversion round-trips losslessly: `toWin32("//c:/foo/bar") ==
"c:\foo\bar"`, `fromWin32("c:\foo\bar") == "//c:/foo/bar"`, and for every
path of drive-root or network-root shape (whose text, being well formed,
contains no backslash), `fromWin32(toWin32(p))` equals `p`. -/
theorem win32_roundtrip :
    toWin32 (PosixPath.ofString "//c:/foo/bar".toList) = "c:\\foo\\bar".toList ∧
    (fromWin32 "c:\\foo\\bar".toList)._pstr = "//c:/foo/bar".toList ∧
    (∀ p : PosixPath, '\\' ∉ p._pstr →
      (path_detail.isDriveRoot p._pstr p._pstr.length ||
        path_detail.isNetworkRoot p._pstr p._pstr.length) = true →
      (fromWin32 (toWin32 p))._pstr = p._pstr ∧
      PosixPath.beq (fromWin32 (toWin32 p)) p = true) := by
  refine ⟨by decide, by decide, ?_⟩
  rintro ⟨l, nf, af⟩ hbs hroot
  dsimp only at hbs hroot ⊢
  suffices h : (fromWin32 (toWin32 ⟨l, nf, af⟩))._pstr = l by
    exact ⟨h, beq_of_pstr_eq _ _ h⟩
  rw [Bool.or_eq_true] at hroot
  rcases hroot with hd | hn
  · -- drive-root shape
    simp only [path_detail.isDriveRoot, Bool.and_eq_true, decide_eq_true_eq,
      beq_iff_eq] at hd
    obtain ⟨⟨⟨⟨h4, h3⟩, h0⟩, h1⟩, ha⟩ := hd
    obtain ⟨c0, c1, c2, c3, rest, rfl⟩ := exists_cons4_of_length_ge l h4
    simp only [path_detail.charAt, List.getD_cons_zero, List.getD_cons_succ] at h3 h0 h1 ha
    subst h0 h1 h3
    have hnb : '\\' ∉ c2 :: ':' :: rest := fun hm =>
      hbs (List.mem_cons_of_mem _ (List.mem_cons_of_mem _ hm))
    have hdr : path_detail.isDriveRoot ('/' :: '/' :: c2 :: ':' :: rest)
        ('/' :: '/' :: c2 :: ':' :: rest).length = true := by
      simp [path_detail.isDriveRoot, path_detail.charAt, ha]
    have htw : toWin32 ⟨'/' :: '/' :: c2 :: ':' :: rest, nf, af⟩ =
        (c2 :: ':' :: rest).map (fun c => if c = '/' then '\\' else c) := by
      simp only [toWin32, hdr, if_true, List.drop_succ_cons, List.drop_zero]
    rw [htw]
    simp only [fromWin32, win32_sep_roundtrip _ hnb, PosixPath.ofString]
    have hc2 : isalpha c2 = true := ha
    simp [path_detail.kNullTerm, hc2]
  · -- network-root shape
    have hnd : path_detail.isDriveRoot l l.length = false :=
      networkRoot_not_driveRoot _ _ hn
    simp only [path_detail.isNetworkRoot, Bool.and_eq_true, decide_eq_true_eq,
      beq_iff_eq] at hn
    obtain ⟨⟨⟨⟨h3len, h0⟩, h1⟩, ha⟩, hnot⟩ := hn
    obtain ⟨c0, rest, rfl⟩ := exists_cons_of_length_ge3 l h3len
    simp only [path_detail.charAt, List.getD_cons_zero] at h0
    subst h0
    have htw : toWin32 ⟨'/' :: rest, nf, af⟩ =
        ('/' :: rest).map (fun c => if c = '/' then '\\' else c) := by
      simp only [toWin32, hnd, Bool.false_eq_true, if_false]
    rw [htw]
    simp only [fromWin32, win32_sep_roundtrip _ hbs, PosixPath.ofString]
    simp [path_detail.kNullTerm, isalpha]

end sw

namespace sw

/-- C8 witness: the general round-trip clause applied at the drive-root path
`"//c:/foo/bar"`. -/
theorem win32_roundtrip_witness :
    (fromWin32 (toWin32 (PosixPath.ofString "//c:/foo/bar".toList)))._pstr =
        (PosixPath.ofString "//c:/foo/bar".toList)._pstr ∧
      PosixPath.beq (fromWin32 (toWin32 (PosixPath.ofString "//c:/foo/bar".toList)))
        (PosixPath.ofString "//c:/foo/bar".toList) = true :=
  win32_roundtrip.2.2 (PosixPath.ofString "//c:/foo/bar".toList) (by decide) (by decide)

end sw
